import Mathlib

/-!
Verification of the small-range crate: a half-open range packed into a single
unsigned integer of width `2 * h` bits, storing `start + 1` in the high `h` bits
and `length + 1` in the low `h` bits.  The model is parametric in `h`
(`HALF_BITS`): the crate instantiates `h = 8` (u16), `h = 16` (u32),
`h = 32` (u64) and `h = 16` or `32` (usize, per platform).

Machine integers of the storage type are modelled as natural numbers below
`2 ^ (2 * h)`; wrapping (release-mode) arithmetic is `wadd` / `wsub`, and the
debug-build behaviour (arithmetic-overflow panics and `debug_assert!` failures)
is modelled by the `Checked` variants returning `Except PanicKind`.
-/

namespace SmallRangeModel

/-- Mask selecting the low half of the storage integer
(`SmallRangeStorage::LOW_MASK`, all `h` low bits set). -/
def LOW_MASK (h : ℕ) : ℕ := 2 ^ h - 1

/-- Wrapping addition at the storage width `2 * h` bits
(release-mode semantics of Rust `+` on the storage type). -/
def wadd (h a b : ℕ) : ℕ := (a + b) % 2 ^ (2 * h)

/-- Wrapping subtraction at the storage width `2 * h` bits
(release-mode semantics of Rust `-` on the storage type). -/
def wsub (h a b : ℕ) : ℕ := (a + 2 ^ (2 * h) - b) % 2 ^ (2 * h)

/-- Model of `SmallRange::encode` (release mode): `length = end - start`,
`hi = start + 1`, `lo = length + 1`, packed value `(hi << h) | lo`,
each step wrapping at the storage width. -/
def encode (h s e : ℕ) : ℕ :=
  let length := wsub h e s
  let hi := wadd h s 1
  let lo := wadd h length 1
  ((hi <<< h) % 2 ^ (2 * h)) ||| lo

/-- Model of `SmallRange::decode_start_length`:
`hi = packed >> h`, `lo = packed & LOW_MASK`, returns `(hi - 1, lo - 1)`. -/
def decode_start_length (h packed : ℕ) : ℕ × ℕ :=
  let hi := packed >>> h
  let lo := packed &&& LOW_MASK h
  (wsub h hi 1, wsub h lo 1)

/-- Model of `SmallRange::start`. -/
def start_ (h packed : ℕ) : ℕ := (decode_start_length h packed).1

/-- Model of `SmallRange::end`: `start + length` from the decoded pair. -/
def end_ (h packed : ℕ) : ℕ :=
  let sl := decode_start_length h packed
  wadd h sl.1 sl.2

/-- Model of `SmallRange::len`: the unbiased low field `(packed & LOW_MASK) - 1`
(the widening to `usize` is lossless for every supported width, so it is the
identity here). -/
def len (h packed : ℕ) : ℕ := wsub h (packed &&& LOW_MASK h) 1

/-- Model of `SmallRange::is_empty`: the biased low field equals 1. -/
def is_empty (h packed : ℕ) : Bool := packed &&& LOW_MASK h == 1

/-- Model of `SmallRange::to_range`: the conventional `(start, end)` pair. -/
def to_range (h packed : ℕ) : ℕ × ℕ :=
  let sl := decode_start_length h packed
  (sl.1, wadd h sl.1 sl.2)

/-- Model of `SmallRange::try_new` (release mode): `None` when `start > end` or a
biased field exceeds `LOW_MASK` after the (wrapping) additions, otherwise the
packed value. -/
def try_new (h s e : ℕ) : Option ℕ :=
  if s > e then none
  else
    let length := wsub h e s
    let hi := wadd h s 1
    let lo := wadd h length 1
    if hi > LOW_MASK h ∨ lo > LOW_MASK h then none
    else some (((hi <<< h) % 2 ^ (2 * h)) ||| lo)

/-- Model of `SmallRange::contains`: `value >= self.start() && value < self.end()`. -/
def contains (h packed v : ℕ) : Bool :=
  decide (start_ h packed ≤ v) && decide (v < end_ h packed)

/-- Model of `SmallRange::overlaps`:
`!self.is_empty() && !other.is_empty() && self.start() < other.end() && other.start() < self.end()`. -/
def overlaps (h p q : ℕ) : Bool :=
  !is_empty h p && !is_empty h q &&
    decide (start_ h p < end_ h q) && decide (start_ h q < end_ h p)

/-- Model of the `Default` impl: `Self::new(T::zero(), T::zero())`. -/
def default_ (h : ℕ) : ℕ := encode h 0 0

/-- Elements yielded by iterating a Rust `Range` pair `(start, end)`:
`start, start + 1, ...` while below `end`. -/
def rangeSeq (r : ℕ × ℕ) : List ℕ := List.range' r.1 (r.2 - r.1)

/-- Model of `IntoIterator for SmallRange`: iterates `self.to_range()`. -/
def intoIterOwned (h packed : ℕ) : List ℕ := rangeSeq (to_range h packed)

/-- Model of `IntoIterator for &SmallRange`: also iterates `self.to_range()`;
the borrowed value is untouched, so the yielded sequence depends only on
`packed`. -/
def intoIterRef (h packed : ℕ) : List ℕ := rangeSeq (to_range h packed)

/-- Kinds of debug-build panic the constructors can raise: the three
`debug_assert!` failures of `encode`, and the checked-arithmetic overflow
panic raised by `+` in debug builds. -/
inductive PanicKind where
  | assertStartLeEnd
  | assertStartCap
  | assertLenCap
  | addOverflow
deriving DecidableEq

/-- Message carried by each panic: the three `debug_assert!` messages of
`encode` / the standard Rust overflow message. -/
def panicMessage : PanicKind → String
  | PanicKind.assertStartLeEnd => "start must not exceed end"
  | PanicKind.assertStartCap => "start+1 exceeds half-width capacity"
  | PanicKind.assertLenCap => "length+1 exceeds half-width capacity"
  | PanicKind.addOverflow => "attempt to add with overflow"

/-- Checked (debug-mode) addition at the storage width: panics on overflow. -/
def cadd (h a b : ℕ) : Except PanicKind ℕ :=
  if a + b < 2 ^ (2 * h) then Except.ok (a + b)
  else Except.error PanicKind.addOverflow

/-- Model of `SmallRange::new` in a debug build (assertions enabled), following
the evaluation order of `encode`: assert `start <= end`; compute
`length = end - start`, `hi = start + 1`, `lo = length + 1` with checked
additions; assert `hi <= LOW_MASK`; assert `lo <= LOW_MASK`; pack. -/
def newChecked (h s e : ℕ) : Except PanicKind ℕ :=
  if s > e then Except.error PanicKind.assertStartLeEnd
  else
    (cadd h s 1).bind fun hi =>
      (cadd h (e - s) 1).bind fun lo =>
        if hi > LOW_MASK h then Except.error PanicKind.assertStartCap
        else if lo > LOW_MASK h then Except.error PanicKind.assertLenCap
        else Except.ok (((hi <<< h) % 2 ^ (2 * h)) ||| lo)

/-- Model of `SmallRange::try_new` in a debug build: the additions
`start + T::one()` and `length + T::one()` are executed before the capacity
checks, so they can panic on overflow. -/
def tryNewChecked (h s e : ℕ) : Except PanicKind (Option ℕ) :=
  if s > e then Except.ok none
  else
    (cadd h s 1).bind fun hi =>
      (cadd h (e - s) 1).bind fun lo =>
        if hi > LOW_MASK h ∨ lo > LOW_MASK h then Except.ok none
        else Except.ok (some (((hi <<< h) % 2 ^ (2 * h)) ||| lo))

/-- Validity of the inputs `(s, e)` for the storage of half-width `h`: the
documented domain of `new` / the acceptance domain of `try_new`. -/
def Valid (h s e : ℕ) : Prop :=
  s ≤ e ∧ s ≤ LOW_MASK h - 1 ∧ e - s ≤ LOW_MASK h - 1

instance (h s e : ℕ) : Decidable (Valid h s e) := by
  unfold Valid
  infer_instance

lemma lor_mod_two_pow (x y h : ℕ) : (x ||| y) % 2 ^ h = (x % 2 ^ h) ||| (y % 2 ^ h) := by
  apply Nat.eq_of_testBit_eq
  intro i
  simp [Nat.testBit_mod_two_pow, Nat.testBit_lor, Bool.and_or_distrib_left]

lemma lor_shiftRight_distrib (x y h : ℕ) : (x ||| y) >>> h = (x >>> h) ||| (y >>> h) := by
  apply Nat.eq_of_testBit_eq
  intro i
  simp [Nat.testBit_shiftRight, Nat.testBit_lor]

lemma shiftLeft_lor_eq_add (a b h : ℕ) (hb : b < 2 ^ h) :
    (a <<< h) ||| b = a * 2 ^ h + b := by
  have hmod : ((a <<< h) ||| b) % 2 ^ h = b := by
    rw [lor_mod_two_pow, Nat.shiftLeft_eq, Nat.mul_mod_left, Nat.mod_eq_of_lt hb]
    simp
  have hdiv : ((a <<< h) ||| b) / 2 ^ h = a := by
    rw [← Nat.shiftRight_eq_div_pow, lor_shiftRight_distrib]
    have h1 : (a <<< h) >>> h = a := by
      rw [Nat.shiftLeft_eq, Nat.shiftRight_eq_div_pow,
        Nat.mul_div_cancel _ (Nat.two_pow_pos h)]
    have h2 : b >>> h = 0 := by
      rw [Nat.shiftRight_eq_div_pow, Nat.div_eq_of_lt hb]
    rw [h1, h2, Nat.or_zero]
  calc (a <<< h) ||| b
      = 2 ^ h * (((a <<< h) ||| b) / 2 ^ h) + ((a <<< h) ||| b) % 2 ^ h :=
        (Nat.div_add_mod _ _).symm
    _ = a * 2 ^ h + b := by rw [hdiv, hmod]; ring

lemma wadd_eq_add (h a b : ℕ) (hab : a + b < 2 ^ (2 * h)) : wadd h a b = a + b :=
  Nat.mod_eq_of_lt hab

lemma wsub_eq_sub (h a b : ℕ) (hba : b ≤ a) (ha : a - b < 2 ^ (2 * h)) :
    wsub h a b = a - b := by
  unfold wsub
  have hr : a + 2 ^ (2 * h) - b = (a - b) + 2 ^ (2 * h) := by omega
  rw [hr, Nat.add_mod_right, Nat.mod_eq_of_lt ha]

lemma valid_bounds (h s e : ℕ) (hh : 0 < h) (hv : Valid h s e) :
    s ≤ e ∧ s + 1 < 2 ^ h ∧ (e - s) + 1 < 2 ^ h ∧ e < 2 ^ (2 * h) := by
  obtain ⟨h1, h2, h3⟩ := hv
  have p1 : 2 ≤ 2 ^ h := by
    calc 2 = 2 ^ 1 := (pow_one 2).symm
    _ ≤ 2 ^ h := Nat.pow_le_pow_right (by omega) hh
  have p2 : 2 ^ h * 2 ≤ 2 ^ (2 * h) := by
    calc 2 ^ h * 2 = 2 ^ (h + 1) := (pow_succ 2 h).symm
    _ ≤ 2 ^ (2 * h) := Nat.pow_le_pow_right (by omega) (by omega)
  have hm : LOW_MASK h = 2 ^ h - 1 := rfl
  rw [hm] at h2 h3
  omega

lemma encode_eq_of_valid (h s e : ℕ) (hh : 0 < h) (hv : Valid h s e) :
    encode h s e = (s + 1) * 2 ^ h + ((e - s) + 1) := by
  obtain ⟨hse, hs1, hl1, heM⟩ := valid_bounds h s e hh hv
  have hMle : 2 ^ h ≤ 2 ^ (2 * h) := Nat.pow_le_pow_right (by omega) (by omega)
  show ((wadd h s 1 <<< h) % 2 ^ (2 * h)) ||| wadd h (wsub h e s) 1 =
    (s + 1) * 2 ^ h + ((e - s) + 1)
  have e1 : wsub h e s = e - s := wsub_eq_sub h e s hse (by omega)
  have e2 : wadd h s 1 = s + 1 := wadd_eq_add h s 1 (by omega)
  rw [e1, e2]
  have e3 : wadd h (e - s) 1 = (e - s) + 1 := wadd_eq_add h (e - s) 1 (by omega)
  rw [e3]
  have e5 : (s + 1) * 2 ^ h < 2 ^ (2 * h) := by
    calc (s + 1) * 2 ^ h < 2 ^ h * 2 ^ h :=
          mul_lt_mul_of_pos_right hs1 (Nat.two_pow_pos h)
    _ = 2 ^ (2 * h) := by rw [← pow_add, two_mul]
  rw [Nat.shiftLeft_eq, Nat.mod_eq_of_lt e5, ← Nat.shiftLeft_eq,
    shiftLeft_lor_eq_add (s + 1) ((e - s) + 1) h hl1, Nat.shiftLeft_eq]

lemma shiftRight_encode (h s e : ℕ) (hh : 0 < h) (hv : Valid h s e) :
    encode h s e >>> h = s + 1 := by
  obtain ⟨hse, hs1, hl1, heM⟩ := valid_bounds h s e hh hv
  rw [encode_eq_of_valid h s e hh hv, Nat.shiftRight_eq_div_pow, mul_comm,
    Nat.mul_add_div (Nat.two_pow_pos h), Nat.div_eq_of_lt hl1, add_zero]

lemma and_mask_encode (h s e : ℕ) (hh : 0 < h) (hv : Valid h s e) :
    encode h s e &&& LOW_MASK h = (e - s) + 1 := by
  obtain ⟨hse, hs1, hl1, heM⟩ := valid_bounds h s e hh hv
  have hm : LOW_MASK h = 2 ^ h - 1 := rfl
  rw [encode_eq_of_valid h s e hh hv, hm, Nat.and_pow_two_sub_one_eq_mod,
    add_comm, Nat.add_mul_mod_self_right, Nat.mod_eq_of_lt hl1]

lemma decode_encode (h s e : ℕ) (hh : 0 < h) (hv : Valid h s e) :
    decode_start_length h (encode h s e) = (s, e - s) := by
  obtain ⟨hse, hs1, hl1, heM⟩ := valid_bounds h s e hh hv
  have hMle : 2 ^ h ≤ 2 ^ (2 * h) := Nat.pow_le_pow_right (by omega) (by omega)
  show (wsub h (encode h s e >>> h) 1, wsub h (encode h s e &&& LOW_MASK h) 1) = (s, e - s)
  rw [shiftRight_encode h s e hh hv, and_mask_encode h s e hh hv]
  have d1 : wsub h (s + 1) 1 = s := by
    rw [wsub_eq_sub h (s + 1) 1 (by omega) (by omega)]
    omega
  have d2 : wsub h ((e - s) + 1) 1 = e - s := by
    rw [wsub_eq_sub h ((e - s) + 1) 1 (by omega) (by omega)]
    omega
  rw [d1, d2]

lemma start_encode (h s e : ℕ) (hh : 0 < h) (hv : Valid h s e) :
    start_ h (encode h s e) = s := by
  unfold start_
  rw [decode_encode h s e hh hv]

lemma len_encode (h s e : ℕ) (hh : 0 < h) (hv : Valid h s e) :
    len h (encode h s e) = e - s := by
  obtain ⟨hse, hs1, hl1, heM⟩ := valid_bounds h s e hh hv
  have hMle : 2 ^ h ≤ 2 ^ (2 * h) := Nat.pow_le_pow_right (by omega) (by omega)
  unfold len
  rw [and_mask_encode h s e hh hv, wsub_eq_sub h ((e - s) + 1) 1 (by omega) (by omega)]
  omega

lemma end_encode (h s e : ℕ) (hh : 0 < h) (hv : Valid h s e) :
    end_ h (encode h s e) = e := by
  obtain ⟨hse, hs1, hl1, heM⟩ := valid_bounds h s e hh hv
  unfold end_
  rw [decode_encode h s e hh hv]
  show wadd h s (e - s) = e
  rw [wadd_eq_add h s (e - s) (by omega)]
  omega

lemma is_empty_encode (h s e : ℕ) (hh : 0 < h) (hv : Valid h s e) :
    is_empty h (encode h s e) = decide (s = e) := by
  obtain ⟨hse, hs1, hl1, heM⟩ := valid_bounds h s e hh hv
  unfold is_empty
  rw [and_mask_encode h s e hh hv]
  have hb : ∀ n : ℕ, ((n + 1 == 1) : Bool) = decide (n = 0) := by
    intro n; cases n <;> simp
  rw [hb]
  simp only [decide_eq_decide]
  omega

lemma to_range_encode (h s e : ℕ) (hh : 0 < h) (hv : Valid h s e) :
    to_range h (encode h s e) = (s, e) := by
  obtain ⟨hse, hs1, hl1, heM⟩ := valid_bounds h s e hh hv
  unfold to_range
  rw [decode_encode h s e hh hv]
  show (s, wadd h s (e - s)) = (s, e)
  rw [wadd_eq_add h s (e - s) (by omega)]
  congr 1
  omega

lemma try_new_eq (h s e : ℕ) :
    try_new h s e =
      if s > e then none
      else if wadd h s 1 > LOW_MASK h ∨ wadd h (wsub h e s) 1 > LOW_MASK h then none
      else some (((wadd h s 1 <<< h) % 2 ^ (2 * h)) ||| wadd h (wsub h e s) 1) := rfl

lemma newChecked_eq (h s e : ℕ) :
    newChecked h s e =
      if s > e then Except.error PanicKind.assertStartLeEnd
      else if s + 1 < 2 ^ (2 * h) then
        (if (e - s) + 1 < 2 ^ (2 * h) then
          (if s + 1 > LOW_MASK h then Except.error PanicKind.assertStartCap
           else if (e - s) + 1 > LOW_MASK h then Except.error PanicKind.assertLenCap
           else Except.ok ((((s + 1) <<< h) % 2 ^ (2 * h)) ||| ((e - s) + 1)))
         else Except.error PanicKind.addOverflow)
      else Except.error PanicKind.addOverflow := by
  unfold newChecked cadd
  by_cases h1 : s > e
  · simp [h1]
  · by_cases h2 : s + 1 < 2 ^ (2 * h)
    · by_cases h3 : (e - s) + 1 < 2 ^ (2 * h)
      · simp [h1, h2, h3, Except.bind]
      · simp [h1, h2, h3, Except.bind]
    · simp [h1, h2, Except.bind]

lemma pow_facts (h : ℕ) (hh : 0 < h) :
    2 ≤ 2 ^ h ∧ 2 ^ h * 2 ≤ 2 ^ (2 * h) ∧ LOW_MASK h = 2 ^ h - 1 := by
  refine ⟨?_, ?_, rfl⟩
  · calc 2 = 2 ^ 1 := (pow_one 2).symm
    _ ≤ 2 ^ h := Nat.pow_le_pow_right (by omega) hh
  · calc 2 ^ h * 2 = 2 ^ (h + 1) := (pow_succ 2 h).symm
    _ ≤ 2 ^ (2 * h) := Nat.pow_le_pow_right (by omega) (by omega)

lemma newChecked_startExceedsEnd (h s e : ℕ) (hgt : e < s) :
    newChecked h s e = Except.error PanicKind.assertStartLeEnd := by
  rw [newChecked_eq, if_pos hgt]

lemma newChecked_addOverflow (h s e : ℕ) (hse : s ≤ e)
    (hov : 2 ^ (2 * h) ≤ s + 1 ∨ 2 ^ (2 * h) ≤ (e - s) + 1) :
    newChecked h s e = Except.error PanicKind.addOverflow := by
  rw [newChecked_eq, if_neg (by omega)]
  rcases hov with hov | hov
  · rw [if_neg (by omega)]
  · by_cases h2 : s + 1 < 2 ^ (2 * h)
    · rw [if_pos h2, if_neg (by omega)]
    · rw [if_neg h2]

lemma newChecked_startCap (h s e : ℕ) (hh : 0 < h) (heM : e < 2 ^ (2 * h))
    (hse : s ≤ e) (hs : LOW_MASK h - 1 < s) (hsM : s + 1 < 2 ^ (2 * h)) :
    newChecked h s e = Except.error PanicKind.assertStartCap := by
  obtain ⟨p1, p2, p3⟩ := pow_facts h hh
  rw [newChecked_eq, if_neg (by omega), if_pos (by omega), if_pos (by omega),
    if_pos (by omega)]

lemma newChecked_lenCap (h s e : ℕ) (hh : 0 < h)
    (hse : s ≤ e) (hs : s ≤ LOW_MASK h - 1) (hl : LOW_MASK h - 1 < e - s)
    (hlM : (e - s) + 1 < 2 ^ (2 * h)) :
    newChecked h s e = Except.error PanicKind.assertLenCap := by
  obtain ⟨p1, p2, p3⟩ := pow_facts h hh
  rw [newChecked_eq, if_neg (by omega), if_pos (by omega), if_pos (by omega),
    if_neg (by omega), if_pos (by omega)]

lemma newChecked_ok (h s e : ℕ) (hh : 0 < h) (hv : Valid h s e) :
    newChecked h s e = Except.ok (encode h s e) := by
  obtain ⟨hse, hs1, hl1, heM⟩ := valid_bounds h s e hh hv
  obtain ⟨p1, p2, p3⟩ := pow_facts h hh
  rw [newChecked_eq, if_neg (by omega), if_pos (by omega), if_pos (by omega),
    if_neg (by omega), if_neg (by omega)]
  congr 1
  rw [encode_eq_of_valid h s e hh hv]
  have e5 : (s + 1) * 2 ^ h < 2 ^ (2 * h) := by
    calc (s + 1) * 2 ^ h < 2 ^ h * 2 ^ h :=
          mul_lt_mul_of_pos_right hs1 (Nat.two_pow_pos h)
    _ = 2 ^ (2 * h) := by rw [← pow_add, two_mul]
  rw [Nat.shiftLeft_eq, Nat.mod_eq_of_lt e5, ← Nat.shiftLeft_eq,
    shiftLeft_lor_eq_add (s + 1) ((e - s) + 1) h hl1, Nat.shiftLeft_eq]

/-- Claim C1: for every supported storage half-width h and every pair
(start, end) with start ≤ end, start ≤ low_mask − 1 and end − start ≤
low_mask − 1, the value built by new(start, end) has stored integer exactly
((start+1) <<< half_bits) ||| (length+1) with length = end − start, and its
start() returns start, end() returns end, and len() returns end − start. -/
theorem C1_encode_layout_roundtrip (h s e : ℕ) (hh : 0 < h) (hse : s ≤ e)
    (hs : s ≤ LOW_MASK h - 1) (hl : e - s ≤ LOW_MASK h - 1) :
    encode h s e = ((s + 1) <<< h) ||| ((e - s) + 1)
    ∧ start_ h (encode h s e) = s
    ∧ end_ h (encode h s e) = e
    ∧ len h (encode h s e) = e - s := by
  have hv : Valid h s e := ⟨hse, hs, hl⟩
  refine ⟨?_, start_encode h s e hh hv, end_encode h s e hh hv, len_encode h s e hh hv⟩
  rw [encode_eq_of_valid h s e hh hv,
    shiftLeft_lor_eq_add (s + 1) ((e - s) + 1) h (valid_bounds h s e hh hv).2.2.1]

/-- Witness for C1 at the u16 width (h = 8), start = 5, end = 10. -/
theorem C1_witness :
    encode 8 5 10 = ((5 + 1) <<< 8) ||| ((10 - 5) + 1)
    ∧ start_ 8 (encode 8 5 10) = 5
    ∧ end_ 8 (encode 8 5 10) = 10
    ∧ len 8 (encode 8 5 10) = 10 - 5 :=
  C1_encode_layout_roundtrip 8 5 10 (by decide) (by decide) (by decide) (by decide)

/-- Claim C2: every value produced by a valid construction — new on valid
inputs, try_new returning a present value, or the default value — has a packed
integer that is never the all-zero bit pattern. -/
theorem C2_packed_never_zero (h : ℕ) (hh : 0 < h) :
    (∀ s e, Valid h s e → encode h s e ≠ 0)
    ∧ (∀ s e p, s < 2 ^ (2 * h) → e < 2 ^ (2 * h) → try_new h s e = some p → p ≠ 0)
    ∧ default_ h ≠ 0 := by
  obtain ⟨p1, p2, p3⟩ := pow_facts h hh
  have henc : ∀ s e, Valid h s e → encode h s e ≠ 0 := by
    intro s e hv
    rw [encode_eq_of_valid h s e hh hv]
    have hpos : 0 < (s + 1) * 2 ^ h + ((e - s) + 1) :=
      Nat.lt_of_lt_of_le (Nat.succ_pos (e - s)) (Nat.le_add_left _ _)
    exact hpos.ne'
  refine ⟨henc, ?_, ?_⟩
  · intro s e p hsM heM htn
    rw [try_new_eq] at htn
    by_cases hgt : s > e
    · rw [if_pos hgt] at htn; exact absurd htn (by simp)
    · rw [if_neg hgt] at htn
      by_cases hcap : wadd h s 1 > LOW_MASK h ∨ wadd h (wsub h e s) 1 > LOW_MASK h
      · rw [if_pos hcap] at htn; exact absurd htn (by simp)
      · rw [if_neg hcap] at htn
        have hp : p = ((wadd h s 1 <<< h) % 2 ^ (2 * h)) ||| wadd h (wsub h e s) 1 :=
          (Option.some_inj.mp htn).symm
        push_neg at hcap
        obtain ⟨hhi, hlo⟩ := hcap
        rw [p3] at hhi hlo
        have hse : s ≤ e := Nat.le_of_not_lt hgt
        intro hp0
        have hdvd : (2:ℕ) ^ h ∣ 2 ^ (2 * h) := pow_dvd_pow 2 (by omega)
        have hlo_lt : wadd h (wsub h e s) 1 < 2 ^ h := by omega
        have hmodp : p % 2 ^ h = wadd h (wsub h e s) 1 := by
          rw [hp, lor_mod_two_pow, Nat.mod_mod_of_dvd _ hdvd, Nat.shiftLeft_eq,
            Nat.mul_mod_left, Nat.mod_eq_of_lt hlo_lt]
          simp
        have hlo0 : wadd h (wsub h e s) 1 = 0 := by
          rw [← hmodp, hp0, Nat.zero_mod]
        have hsub : wsub h e s = e - s := wsub_eq_sub h e s hse (by omega)
        have hlo0m : ((e - s) + 1) % 2 ^ (2 * h) = 0 := by
          have hx := hlo0
          unfold wadd at hx
          rw [hsub] at hx
          exact hx
        have hes : s = 0 ∧ e = 2 ^ (2 * h) - 1 := by
          rcases Nat.lt_or_ge ((e - s) + 1) (2 ^ (2 * h)) with hlt | hge
          · rw [Nat.mod_eq_of_lt hlt] at hlo0m; omega
          · constructor <;> omega
        obtain ⟨hs0, he1⟩ := hes
        have hhi1 : wadd h s 1 = 1 := by
          unfold wadd
          rw [hs0]
          have h01 : (0 + 1 : ℕ) = 1 := rfl
          rw [h01]
          exact Nat.mod_eq_of_lt (by omega)
        have hph : p = 2 ^ h := by
          rw [hp, hhi1, hlo0, Nat.or_zero, Nat.shiftLeft_eq, one_mul]
          exact Nat.mod_eq_of_lt (by omega)
        rw [hp0] at hph
        have := Nat.two_pow_pos h
        omega
  · show encode h 0 0 ≠ 0
    exact henc 0 0 ⟨Nat.le_refl 0, Nat.zero_le _, Nat.zero_le _⟩

/-- Witness for C2 at the u16 width (h = 8). -/
theorem C2_witness :
    (∀ s e, Valid 8 s e → encode 8 s e ≠ 0)
    ∧ (∀ s e p, s < 2 ^ (2 * 8) → e < 2 ^ (2 * 8) → try_new 8 s e = some p → p ≠ 0)
    ∧ default_ 8 ≠ 0 :=
  C2_packed_never_zero 8 (by decide)

/-- Claim C3 evaluated at concrete inputs (code_bug): at u16 (h = 8) the
capacity boundary behaves as claimed at (255, 255) and (254, 254), but at
(65535, 65535) — start equal to the maximum of the storage type — the debug
build of try_new panics with the arithmetic-overflow panic raised by
start + 1 (instead of returning the absent value the claim and the crate's
own documentation and property test require), and the release build wraps the
addition and returns a present value with packed integer 1. -/
theorem C3_try_new_overflow_bug :
    tryNewChecked 8 255 255 = Except.ok none
    ∧ tryNewChecked 8 254 254 = Except.ok (some 65281)
    ∧ tryNewChecked 8 65535 65535 = Except.error PanicKind.addOverflow
    ∧ try_new 8 65535 65535 = some 1 :=
  ⟨rfl, rfl, rfl, rfl⟩

/-- Claim C4: for every validly constructed range and every value v,
contains(v) is true iff start() ≤ v < end(); it is true at the boundary
start() of a non-empty range, false at the boundary end(), and an empty range
contains nothing, including its own boundary value. -/
theorem C4_contains_halfopen (h s e v : ℕ) (hh : 0 < h) (hse : s ≤ e)
    (hs : s ≤ LOW_MASK h - 1) (hl : e - s ≤ LOW_MASK h - 1) :
    (contains h (encode h s e) v = true ↔ s ≤ v ∧ v < e)
    ∧ (s < e → contains h (encode h s e) s = true)
    ∧ contains h (encode h s e) e = false
    ∧ (s = e → contains h (encode h s e) v = false) := by
  have hv : Valid h s e := ⟨hse, hs, hl⟩
  have hc : ∀ w, contains h (encode h s e) w = (decide (s ≤ w) && decide (w < e)) := by
    intro w
    unfold contains
    rw [start_encode h s e hh hv, end_encode h s e hh hv]
  refine ⟨?_, fun hlt => ?_, ?_, fun heq => ?_⟩
  · rw [hc v]; simp
  · rw [hc s]; simp [hlt]
  · rw [hc e]; simp
  · rw [hc v]; simp; omega

/-- Witness for C4 at the u16 width (h = 8), range (5, 10), value 7. -/
theorem C4_witness :
    (contains 8 (encode 8 5 10) 7 = true ↔ 5 ≤ 7 ∧ 7 < 10)
    ∧ (5 < 10 → contains 8 (encode 8 5 10) 5 = true)
    ∧ contains 8 (encode 8 5 10) 10 = false
    ∧ (5 = 10 → contains 8 (encode 8 5 10) 7 = false) :=
  C4_contains_halfopen 8 5 10 7 (by decide) (by decide) (by decide) (by decide)

/-- Claim C5: for every pair of validly constructed ranges, overlaps returns
false whenever either operand is empty, and when both are non-empty it returns
true iff a.start() < b.end() and b.start() < a.end(). -/
theorem C5_overlaps_characterization (h s1 e1 s2 e2 : ℕ) (hh : 0 < h)
    (hv1 : Valid h s1 e1) (hv2 : Valid h s2 e2) :
    ((s1 = e1 ∨ s2 = e2) → overlaps h (encode h s1 e1) (encode h s2 e2) = false)
    ∧ ((s1 < e1 ∧ s2 < e2) →
        (overlaps h (encode h s1 e1) (encode h s2 e2) = true ↔ s1 < e2 ∧ s2 < e1)) := by
  have ho : overlaps h (encode h s1 e1) (encode h s2 e2) =
      (!decide (s1 = e1) && !decide (s2 = e2) && decide (s1 < e2) && decide (s2 < e1)) := by
    unfold overlaps
    rw [is_empty_encode h s1 e1 hh hv1, is_empty_encode h s2 e2 hh hv2,
      start_encode h s1 e1 hh hv1, start_encode h s2 e2 hh hv2,
      end_encode h s1 e1 hh hv1, end_encode h s2 e2 hh hv2]
  constructor
  · intro hemp
    rw [ho]
    rcases hemp with he | he <;> simp [he]
  · intro hne
    obtain ⟨h1, h2⟩ := hne
    rw [ho]
    simp [Nat.ne_of_lt h1, Nat.ne_of_lt h2]

/-- Witness for C5 at the u16 width (h = 8), ranges (0, 10) and (5, 15). -/
theorem C5_witness :
    ((0 = 10 ∨ 5 = 15) → overlaps 8 (encode 8 0 10) (encode 8 5 15) = false)
    ∧ ((0 < 10 ∧ 5 < 15) →
        (overlaps 8 (encode 8 0 10) (encode 8 5 15) = true ↔ 0 < 15 ∧ 5 < 10)) :=
  C5_overlaps_characterization 8 0 10 5 15 (by decide) (by decide) (by decide)

/-- Claim C6: for every validly constructed range, field extraction and the
derived computations are total: both biased fields of the packed integer are
at least 1 (so neither unbiasing subtraction underflows), and the decoded
start plus the decoded length stays below the storage width (so the addition
in end() and to_range() does not overflow: end() is exactly start() + len()
without wrapping). -/
theorem C6_reads_total (h s e : ℕ) (hh : 0 < h) (hv : Valid h s e) :
    1 ≤ encode h s e >>> h
    ∧ 1 ≤ encode h s e &&& LOW_MASK h
    ∧ start_ h (encode h s e) + len h (encode h s e) < 2 ^ (2 * h)
    ∧ end_ h (encode h s e) = start_ h (encode h s e) + len h (encode h s e) := by
  obtain ⟨hse, hs1, hl1, heM⟩ := valid_bounds h s e hh hv
  rw [shiftRight_encode h s e hh hv, and_mask_encode h s e hh hv,
    start_encode h s e hh hv, len_encode h s e hh hv, end_encode h s e hh hv]
  refine ⟨by omega, by omega, by omega, by omega⟩

/-- Witness for C6 at the u16 width (h = 8), range (3, 7). -/
theorem C6_witness :
    1 ≤ encode 8 3 7 >>> 8
    ∧ 1 ≤ encode 8 3 7 &&& LOW_MASK 8
    ∧ start_ 8 (encode 8 3 7) + len 8 (encode 8 3 7) < 2 ^ (2 * 8)
    ∧ end_ 8 (encode 8 3 7) = start_ 8 (encode 8 3 7) + len 8 (encode 8 3 7) :=
  C6_reads_total 8 3 7 (by decide) (by decide)

/-- Claim C10: every validly constructed non-empty range (is_empty returns
false) overlaps itself. -/
theorem C10_nonempty_overlaps_self (h s e : ℕ) (hh : 0 < h) (hv : Valid h s e)
    (hne : is_empty h (encode h s e) = false) :
    overlaps h (encode h s e) (encode h s e) = true := by
  rw [is_empty_encode h s e hh hv] at hne
  have hnee : s ≠ e := of_decide_eq_false hne
  have hlt : s < e := by
    obtain ⟨hse, _, _⟩ := hv
    omega
  unfold overlaps
  rw [is_empty_encode h s e hh hv, start_encode h s e hh hv, end_encode h s e hh hv]
  simp [hnee, hlt]

/-- Witness for C10 at the u16 width (h = 8), range (5, 10). -/
theorem C10_witness : overlaps 8 (encode 8 5 10) (encode 8 5 10) = true :=
  C10_nonempty_overlaps_self 8 5 10 (by decide) (by decide) (by decide)

/-- Claim C7 (amended): in builds with assertions enabled, new(start, end)
signals failure exactly when start > end or start or length = end − start
exceeds low_mask − 1. The start > end condition is signalled by its own
distinctly-worded assertion; when start + 1 and length + 1 do not overflow
the storage type, the start-capacity and length-capacity conditions are
signalled by two further assertions, each with its own distinct wording; but
when start + 1 or length + 1 overflows the storage type, the capacity
violation is signalled instead by the generic arithmetic-overflow panic,
whose wording is shared between the two capacity conditions. -/
theorem C7_new_failure_conditions (h s e : ℕ) (hh : 0 < h)
    (hsM : s < 2 ^ (2 * h)) (heM : e < 2 ^ (2 * h)) :
    ((∃ p, newChecked h s e = Except.ok p) ↔
      (s ≤ e ∧ s ≤ LOW_MASK h - 1 ∧ e - s ≤ LOW_MASK h - 1))
    ∧ (e < s → newChecked h s e = Except.error PanicKind.assertStartLeEnd)
    ∧ (s ≤ e → LOW_MASK h - 1 < s → s + 1 < 2 ^ (2 * h) →
        newChecked h s e = Except.error PanicKind.assertStartCap)
    ∧ (s ≤ e → s ≤ LOW_MASK h - 1 → LOW_MASK h - 1 < e - s → (e - s) + 1 < 2 ^ (2 * h) →
        newChecked h s e = Except.error PanicKind.assertLenCap)
    ∧ (s ≤ e → (2 ^ (2 * h) ≤ s + 1 ∨ 2 ^ (2 * h) ≤ (e - s) + 1) →
        newChecked h s e = Except.error PanicKind.addOverflow)
    ∧ panicMessage PanicKind.assertStartLeEnd ≠ panicMessage PanicKind.assertStartCap
    ∧ panicMessage PanicKind.assertStartLeEnd ≠ panicMessage PanicKind.assertLenCap
    ∧ panicMessage PanicKind.assertStartCap ≠ panicMessage PanicKind.assertLenCap := by
  obtain ⟨p1, p2, p3⟩ := pow_facts h hh
  refine ⟨⟨?_, ?_⟩, newChecked_startExceedsEnd h s e,
    fun h1 h2 h3 => newChecked_startCap h s e hh heM h1 h2 h3,
    fun h1 h2 h3 h4 => newChecked_lenCap h s e hh h1 h2 h3 h4,
    fun h1 h2 => newChecked_addOverflow h s e h1 h2, by decide, by decide, by decide⟩
  · rintro ⟨p, hp⟩
    by_contra hcon
    rw [p3] at hcon
    rcases Nat.lt_or_ge e s with hgt | hse
    · rw [newChecked_startExceedsEnd h s e hgt] at hp
      exact absurd hp (by simp)
    rcases Nat.lt_or_ge (2 ^ h - 1 - 1) s with hsc | hsc
    · rcases Nat.lt_or_ge (s + 1) (2 ^ (2 * h)) with hso | hso
      · rw [newChecked_startCap h s e hh heM hse (by rw [p3]; omega) hso] at hp
        exact absurd hp (by simp)
      · rw [newChecked_addOverflow h s e hse (Or.inl hso)] at hp
        exact absurd hp (by simp)
    · have hlc : 2 ^ h - 1 - 1 < e - s := by omega
      rcases Nat.lt_or_ge ((e - s) + 1) (2 ^ (2 * h)) with hlo | hlo
      · rw [newChecked_lenCap h s e hh hse (by rw [p3]; omega) (by rw [p3]; omega) hlo] at hp
        exact absurd hp (by simp)
      · rw [newChecked_addOverflow h s e hse (Or.inr hlo)] at hp
        exact absurd hp (by simp)
  · intro hvv
    exact ⟨encode h s e, newChecked_ok h s e hh hvv⟩

/-- Counterexample to claim C7 as stated: at u16 (h = 8), the input
(65535, 65535) violates only the start-capacity condition and (0, 65535)
violates only the length-capacity condition, yet new in a debug build raises
the identical generic arithmetic-overflow panic for both (before reaching the
capacity assertions) — so the two capacity conditions are not signalled by
distinctly-worded failure conditions. -/
theorem C7_counterexample :
    ((65535:ℕ) ≤ 65535 ∧ LOW_MASK 8 - 1 < 65535 ∧ 65535 - 65535 ≤ LOW_MASK 8 - 1)
    ∧ ((0:ℕ) ≤ 65535 ∧ (0:ℕ) ≤ LOW_MASK 8 - 1 ∧ LOW_MASK 8 - 1 < 65535 - 0)
    ∧ newChecked 8 65535 65535 = newChecked 8 0 65535
    ∧ newChecked 8 65535 65535 = Except.error PanicKind.addOverflow
    ∧ panicMessage PanicKind.addOverflow ≠ panicMessage PanicKind.assertStartCap
    ∧ panicMessage PanicKind.addOverflow ≠ panicMessage PanicKind.assertLenCap :=
  ⟨by decide, by decide, rfl, rfl, by decide, by decide⟩

/-- Witness for C7 at the u16 width (h = 8), inputs (20, 10). -/
theorem C7_witness :
    ((∃ p, newChecked 8 20 10 = Except.ok p) ↔
      ((20:ℕ) ≤ 10 ∧ (20:ℕ) ≤ LOW_MASK 8 - 1 ∧ 10 - 20 ≤ LOW_MASK 8 - 1))
    ∧ ((10:ℕ) < 20 → newChecked 8 20 10 = Except.error PanicKind.assertStartLeEnd)
    ∧ ((20:ℕ) ≤ 10 → LOW_MASK 8 - 1 < 20 → 20 + 1 < 2 ^ (2 * 8) →
        newChecked 8 20 10 = Except.error PanicKind.assertStartCap)
    ∧ ((20:ℕ) ≤ 10 → (20:ℕ) ≤ LOW_MASK 8 - 1 → LOW_MASK 8 - 1 < 10 - 20 →
        (10 - 20) + 1 < 2 ^ (2 * 8) →
        newChecked 8 20 10 = Except.error PanicKind.assertLenCap)
    ∧ ((20:ℕ) ≤ 10 → (2 ^ (2 * 8) ≤ 20 + 1 ∨ 2 ^ (2 * 8) ≤ (10 - 20) + 1) →
        newChecked 8 20 10 = Except.error PanicKind.addOverflow)
    ∧ panicMessage PanicKind.assertStartLeEnd ≠ panicMessage PanicKind.assertStartCap
    ∧ panicMessage PanicKind.assertStartLeEnd ≠ panicMessage PanicKind.assertLenCap
    ∧ panicMessage PanicKind.assertStartCap ≠ panicMessage PanicKind.assertLenCap :=
  C7_new_failure_conditions 8 20 10 (by decide) (by decide) (by decide)

/-- Claim C8: iterating a validly constructed range, by value or by borrowed
reference, yields exactly the finite ascending sequence of every integer in
[start(), end()); both IntoIterator impls read only the packed value, so
repeated iteration yields the same sequence; iterating new(5, 10) yields
exactly [5, 6, 7, 8, 9]. -/
theorem C8_iteration_sequence (h s e : ℕ) (hh : 0 < h) (hv : Valid h s e) :
    intoIterOwned h (encode h s e) = List.range' s (e - s)
    ∧ intoIterRef h (encode h s e) = intoIterOwned h (encode h s e)
    ∧ (∀ v, v ∈ intoIterOwned h (encode h s e) ↔ s ≤ v ∧ v < e)
    ∧ List.Sorted (· < ·) (intoIterOwned h (encode h s e))
    ∧ intoIterOwned 8 (encode 8 5 10) = [5, 6, 7, 8, 9] := by
  obtain ⟨hse, _, _, _⟩ := valid_bounds h s e hh hv
  have hlist : intoIterOwned h (encode h s e) = List.range' s (e - s) := by
    unfold intoIterOwned rangeSeq
    rw [to_range_encode h s e hh hv]
  refine ⟨hlist, rfl, ?_, ?_, by decide⟩
  · intro v
    rw [hlist, List.mem_range'_1]
    omega
  · rw [hlist]
    exact List.pairwise_lt_range' s (e - s)

/-- Witness for C8 at the u16 width (h = 8), range (5, 10). -/
theorem C8_witness :
    intoIterOwned 8 (encode 8 5 10) = List.range' 5 (10 - 5)
    ∧ intoIterRef 8 (encode 8 5 10) = intoIterOwned 8 (encode 8 5 10)
    ∧ (∀ v, v ∈ intoIterOwned 8 (encode 8 5 10) ↔ 5 ≤ v ∧ v < 10)
    ∧ List.Sorted (· < ·) (intoIterOwned 8 (encode 8 5 10))
    ∧ intoIterOwned 8 (encode 8 5 10) = [5, 6, 7, 8, 9] :=
  C8_iteration_sequence 8 5 10 (by decide) (by decide)

/-- Claim C9: structural equality of the packed integers of two validly
constructed ranges coincides with equality of their decoded start and length
(the encoding is a bijection on valid inputs), and the default value is the
empty range starting and ending at zero. -/
theorem C9_equality_bijection (h s1 e1 s2 e2 : ℕ) (hh : 0 < h)
    (hv1 : Valid h s1 e1) (hv2 : Valid h s2 e2) :
    (encode h s1 e1 = encode h s2 e2 ↔
      (start_ h (encode h s1 e1) = start_ h (encode h s2 e2)
        ∧ len h (encode h s1 e1) = len h (encode h s2 e2)))
    ∧ default_ h = encode h 0 0
    ∧ start_ h (default_ h) = 0
    ∧ end_ h (default_ h) = 0
    ∧ is_empty h (default_ h) = true := by
  have hv0 : Valid h 0 0 := ⟨Nat.le_refl 0, Nat.zero_le _, Nat.zero_le _⟩
  refine ⟨⟨fun heq => ⟨congrArg (start_ h) heq, congrArg (len h) heq⟩, fun hp => ?_⟩,
    rfl, ?_, ?_, ?_⟩
  · obtain ⟨hps, hpl⟩ := hp
    rw [start_encode h s1 e1 hh hv1, start_encode h s2 e2 hh hv2] at hps
    rw [len_encode h s1 e1 hh hv1, len_encode h s2 e2 hh hv2] at hpl
    rw [encode_eq_of_valid h s1 e1 hh hv1, encode_eq_of_valid h s2 e2 hh hv2, hpl, hps]
  · show start_ h (encode h 0 0) = 0
    exact start_encode h 0 0 hh hv0
  · show end_ h (encode h 0 0) = 0
    exact end_encode h 0 0 hh hv0
  · show is_empty h (encode h 0 0) = true
    rw [is_empty_encode h 0 0 hh hv0]
    simp

/-- Witness for C9 at the u16 width (h = 8), ranges (10, 20) and (10, 20). -/
theorem C9_witness :
    (encode 8 10 20 = encode 8 10 20 ↔
      (start_ 8 (encode 8 10 20) = start_ 8 (encode 8 10 20)
        ∧ len 8 (encode 8 10 20) = len 8 (encode 8 10 20)))
    ∧ default_ 8 = encode 8 0 0
    ∧ start_ 8 (default_ 8) = 0
    ∧ end_ 8 (default_ 8) = 0
    ∧ is_empty 8 (default_ 8) = true :=
  C9_equality_bijection 8 10 20 10 20 (by decide) (by decide) (by decide)

end SmallRangeModel
